import Mathlib

/-!
Verification of the recursive broken-link checker (src/index.js).

Strings are modelled as lists of characters (`Str`).  The crawl engine's
mutable state (urlQueue / queuePosition / visitedUrls / brokenLinks) becomes
an explicit `CrawlState`; the HTTP transport is an oracle
`Str → FetchResult`; one iteration of the while loop is `step`, and `run`
iterates it with fuel, stopping (as the source does) once the queue
position reaches the queue length.  The `fetched` field instruments the
state with the list of URLs for which a fetch was issued, in order.
-/

set_option maxRecDepth 8000

namespace LinkCheck

/-- JS strings modelled as lists of characters. -/
abbrev Str := List Char

/-- Character list of a Lean string literal. -/
def lit (s : String) : Str := s.toList

/-- `s.split("?")[0]`: everything before the first `'?'` (src/index.js line 144). -/
def stripQuery : Str → Str
  | [] => []
  | c :: cs => if c = '?' then [] else c :: stripQuery cs

/-- A kept href value after classification: the query string is stripped
(line 144) and, like a discarded one, a falsy (empty) result is removed by
the final `.filter((href) => !!href)` (line 149). -/
def keepStripped (s : Str) : Option Str :=
  if stripQuery s = [] then none else some (stripQuery s)

/-- The per-href classification body of `getHrefs` (src/index.js lines 122-148):
origin-relative hrefs are resolved against `baseUrl`; `#`/`mailto:`/`tel:`
hrefs and the literals `true`/`false` are dropped; hrefs starting with
`http` are kept as-is; anything else is concatenated onto `currentUrl`;
the kept value then has its query string stripped. -/
def normalize (href currentUrl baseUrl : Str) : Option Str :=
  if lit "/" <+: href then keepStripped (baseUrl ++ href)
  else if lit "#" <+: href ∨ lit "mailto:" <+: href ∨ lit "tel:" <+: href then none
  else if href = lit "true" ∨ href = lit "false" then none
  else if lit "http" <+: href then keepStripped href
  else keepStripped (currentUrl ++ href)

/-- Characters matched by `.` in a JS regex without the `s` flag. -/
def regexDotOk (c : Char) : Bool :=
  !(c == '\n' || c == '\r' || c == Char.ofNat 0x2028 || c == Char.ofNat 0x2029)

/-- Lazy scan for the closing quote of `href=".+?"`: consume dot-matching
characters until a `'"'`; the accumulator holds the content reversed. -/
def scanContent : Str → List Char → Option (Str × List Char)
  | _, [] => none
  | acc, c :: cs =>
    if c = '"' then some (acc.reverse, cs)
    else if regexDotOk c then scanContent (c :: acc) cs
    else none

/-- Match `.+?"` at the current position: at least one dot-matching
character, lazily extended until a closing quote. -/
def matchOne : List Char → Option (Str × List Char)
  | [] => none
  | c :: cs => if regexDotOk c then scanContent [c] cs else none

/-- Global scan of `text.match(/href=".+?"/g)` (with the `href="` / final
`"` already sliced off each match, as lines 119-123 do): leftmost,
non-overlapping matches; on a failed match attempt the scan advances one
character. -/
def matchHrefsAux : Nat → List Char → List Str
  | 0, _ => []
  | _, [] => []
  | fuel + 1, c :: cs =>
    if lit "href=\"" <+: (c :: cs) then
      match matchOne ((c :: cs).drop 6) with
      | some (content, rest) => content :: matchHrefsAux fuel rest
      | none => matchHrefsAux fuel cs
    else matchHrefsAux fuel cs

def matchHrefs (text : Str) : List Str := matchHrefsAux text.length text

/-- `getHrefs(text, currentUrl)` (src/index.js lines 118-152); the global
`baseUrl` is passed explicitly. -/
def getHrefs (text currentUrl baseUrl : Str) : List Str :=
  (matchHrefs text).filterMap (fun h => normalize h currentUrl baseUrl)

/-- Outcome of the external `fetch` capability: a transport failure, or a
response with a status, an optional `content-type` header and a body. -/
inductive FetchResult where
  | transportError : FetchResult
  | response (status : Nat) (contentType : Option Str) (body : Str) : FetchResult
deriving DecidableEq

/-- The body of the `try` block for one frontier entry (src/index.js lines
61-83).  `.error ()` is a thrown-and-caught error (a broken link): a
transport failure, a 404 status, or — for an in-origin URL — a missing
`content-type` header, on which `contentType.includes` throws.  `.ok ls`
returns the normalized, not-yet-visited hrefs to enqueue (`visited`
already contains the current URL, as the source adds it before fetching). -/
def fetchStep (fetchO : Str → FetchResult) (baseUrl : Str) (visited : List Str)
    (url : Str) : Except Unit (List Str) :=
  match fetchO url with
  | .transportError => .error ()
  | .response status contentType body =>
    if status = 404 then .error ()
    else if baseUrl <+: url then
      match contentType with
      | none => .error ()
      | some ct =>
        let html := if lit "text/html" <:+: ct then body else []
        .ok ((getHrefs html url baseUrl).filter (fun h => decide (h ∉ visited)))
    else .ok []

/-- A frontier entry `{ url, foundOn }`. -/
structure Entry where
  url : Str
  foundOn : Str
deriving DecidableEq

/-- The crawl engine's state: the growing queue, the read position, the
visited set, the broken-link records, and (instrumentation) the URLs for
which a fetch was issued, in issue order. -/
structure CrawlState where
  queue : List Entry
  queuePos : Nat
  visited : List Str
  broken : List Entry
  fetched : List Str
deriving DecidableEq

/-- One iteration of the while loop (src/index.js lines 51-91): read the
entry at the queue position, advance the position, skip if visited, else
mark visited, fetch, and either record a broken link or append the newly
discovered entries to the queue tail. -/
def step (fetchO : Str → FetchResult) (baseUrl : Str) (s : CrawlState) : CrawlState :=
  match s.queue[s.queuePos]? with
  | none => s
  | some e =>
    if e.url ∈ s.visited then
      { s with queuePos := s.queuePos + 1 }
    else
      let visited' := e.url :: s.visited
      match fetchStep fetchO baseUrl visited' e.url with
      | .error _ =>
        { s with queuePos := s.queuePos + 1, visited := visited',
                 fetched := s.fetched ++ [e.url], broken := s.broken ++ [e] }
      | .ok ls =>
        { s with queuePos := s.queuePos + 1, visited := visited',
                 fetched := s.fetched ++ [e.url],
                 queue := s.queue ++ ls.map (fun u => ⟨u, e.url⟩) }

/-- The while loop, with fuel: it stops early exactly when the queue
position has reached the queue length. -/
def run (fetchO : Str → FetchResult) (baseUrl : Str) : Nat → CrawlState → CrawlState
  | 0, s => s
  | n + 1, s =>
    if s.queuePos < s.queue.length then run fetchO baseUrl n (step fetchO baseUrl s) else s

/-- Initial state (src/index.js lines 20-27): one seed entry with the
sentinel `foundOn` value, everything else empty. -/
def initState (seed : Str) : CrawlState :=
  { queue := [⟨seed, lit "base URL"⟩], queuePos := 0, visited := [], broken := [],
    fetched := [] }

/-- JS `String.prototype.replace` with a string pattern: replace the first
occurrence only, return the string unchanged if the pattern is absent. -/
def replaceFirst (pat rep : Str) : Str → Str
  | [] => []
  | c :: cs =>
    if pat <+: (c :: cs) then rep ++ (c :: cs).drop pat.length
    else c :: replaceFirst pat rep cs

/-- Scheme fix-up of the starting URL (src/index.js lines 14-18). -/
def fixStartingUrl (input : Str) : Str :=
  if lit "http" <+: input then replaceFirst (lit "http://") (lit "https://") input
  else lit "https://" ++ input

/-- The loop has ended: the queue position has reached the queue length. -/
def terminal (s : CrawlState) : Prop := s.queue.length ≤ s.queuePos

/-- Written from the spec's wording of claim C4, for comparison with
`normalize`: origin-relative, then fragment/mailto/tel discard, then
scheme-prefixed kept as-is, otherwise concatenation onto the current page;
every kept case is query-stripped.  (No `true`/`false` rule.) -/
def normalizeClaimC4 (href currentUrl baseUrl : Str) : Option Str :=
  if lit "/" <+: href then some (stripQuery (baseUrl ++ href))
  else if lit "#" <+: href ∨ lit "mailto:" <+: href ∨ lit "tel:" <+: href then none
  else if lit "http" <+: href then some (stripQuery href)
  else some (stripQuery (currentUrl ++ href))

/-- A finite universe of URLs containing everything the crawl can enqueue:
it contains the seed and is closed under the links a fetched page yields. -/
def closedUniverse (fetchO : Str → FetchResult) (baseUrl : Str) (U : List Str) : Prop :=
  ∀ u ∈ U, ∀ (visited : List Str) (ls : List Str),
    fetchStep fetchO baseUrl visited u = .ok ls → ∀ h ∈ ls, h ∈ U

/-- Crawl-state invariant for termination: the visited set has no
duplicates and every visited URL and every queued URL lies in `U`. -/
def InvU (U : List Str) (s : CrawlState) : Prop :=
  s.visited.Nodup ∧ (∀ u ∈ s.visited, u ∈ U) ∧ (∀ e ∈ s.queue, e.url ∈ U)

/-- Crawl-state invariant for de-duplication: the visited set is exactly
the set of fetched URLs (marked at pop time), with no duplicate fetches. -/
def InvFetch (s : CrawlState) : Prop :=
  s.visited = s.fetched.reverse ∧ s.fetched.Nodup

/-- Crawl-state invariant for frontier-entry shape: the seed entry stays at
the queue head, every queued URL starts with `http`, and every non-seed
queued URL is query-free. -/
def InvQ (seed : Str) (s : CrawlState) : Prop :=
  (∃ tl, s.queue = ⟨seed, lit "base URL"⟩ :: tl ∧ ∀ e ∈ tl, '?' ∉ e.url) ∧
  (∀ e ∈ s.queue, lit "http" <+: e.url)

/-- Test oracle: every URL yields a transport error. -/
def errFetch : Str → FetchResult := fun _ => .transportError

/-- Test oracle: every URL yields status 500 with no content-type header. -/
def noCtFetch : Str → FetchResult := fun _ => .response 500 none []

/-- Test oracle: a seed page linking to `/a` then `/b`, with `/a` linking
to `/c`; every other page is empty HTML. -/
def bfsFetch : Str → FetchResult := fun u =>
  if u = lit "https://s" then
    .response 200 (some (lit "text/html")) (lit "<a href=\"/a\"><a href=\"/b\">")
  else if u = lit "https://s/a" then
    .response 200 (some (lit "text/html")) (lit "<a href=\"/c\">")
  else .response 200 (some (lit "text/html")) []

/-- Test oracle: the seed page carries a single href `httpz`, which the
normalizer keeps as-is; every other page is empty HTML. -/
def oddHrefFetch : Str → FetchResult := fun u =>
  if u = lit "https://s" then
    .response 200 (some (lit "text/html")) (lit "<a href=\"httpz\">")
  else .response 200 (some (lit "text/html")) []

/-! ### Lemmas about query stripping and normalization -/

theorem stripQuery_cons (c : Char) (cs : Str) :
    stripQuery (c :: cs) = if c = '?' then [] else c :: stripQuery cs := rfl

theorem stripQuery_append_query (xs ys : Str) :
    stripQuery (xs ++ '?' :: ys) = stripQuery xs := by
  induction xs with
  | nil => simp [stripQuery]
  | cons c cs ih =>
    by_cases h : c = '?'
    · simp [stripQuery_cons, h]
    · simp [stripQuery_cons, h, ih]

theorem not_mem_stripQuery (s : Str) : '?' ∉ stripQuery s := by
  induction s with
  | nil => simp [stripQuery]
  | cons c cs ih =>
    by_cases h : c = '?'
    · simp [stripQuery_cons, h]
    · rw [stripQuery_cons, if_neg h]
      intro hmem
      rcases List.mem_cons.1 hmem with h1 | h1
      · exact h h1.symm
      · exact ih h1

theorem http_prefix_stripQuery {s : Str} (h : lit "http" <+: s) :
    lit "http" <+: stripQuery s := by
  obtain ⟨t, ht⟩ := h
  subst ht
  have he : stripQuery (lit "http" ++ t) = 'h' :: 't' :: 't' :: 'p' :: stripQuery t := by
    show stripQuery ('h' :: 't' :: 't' :: 'p' :: t) = _
    rw [stripQuery_cons, if_neg (by decide), stripQuery_cons, if_neg (by decide),
        stripQuery_cons, if_neg (by decide), stripQuery_cons, if_neg (by decide)]
  rw [he]
  exact ⟨stripQuery t, rfl⟩

theorem stripQuery_ne_nil_of_http {s : Str} (h : lit "http" <+: s) :
    stripQuery s ≠ [] := by
  obtain ⟨t, ht⟩ := http_prefix_stripQuery h
  intro hnil
  rw [hnil] at ht
  simp [lit] at ht

theorem keepStripped_of_http {s : Str} (h : lit "http" <+: s) :
    keepStripped s = some (stripQuery s) := by
  rw [keepStripped, if_neg (stripQuery_ne_nil_of_http h)]

theorem normalize_of_slash (href cur b : Str) (h1 : lit "/" <+: href) :
    normalize href cur b = keepStripped (b ++ href) := by
  unfold normalize
  rw [if_pos h1]

theorem normalize_of_discard (href cur b : Str) (h1 : ¬ lit "/" <+: href)
    (h2 : lit "#" <+: href ∨ lit "mailto:" <+: href ∨ lit "tel:" <+: href) :
    normalize href cur b = none := by
  unfold normalize
  rw [if_neg h1, if_pos h2]

theorem normalize_of_bool (href cur b : Str) (h1 : ¬ lit "/" <+: href)
    (h2 : ¬ (lit "#" <+: href ∨ lit "mailto:" <+: href ∨ lit "tel:" <+: href))
    (h3 : href = lit "true" ∨ href = lit "false") :
    normalize href cur b = none := by
  unfold normalize
  rw [if_neg h1, if_neg h2, if_pos h3]

theorem normalize_of_http (href cur b : Str) (h1 : ¬ lit "/" <+: href)
    (h2 : ¬ (lit "#" <+: href ∨ lit "mailto:" <+: href ∨ lit "tel:" <+: href))
    (h3 : ¬ (href = lit "true" ∨ href = lit "false")) (h4 : lit "http" <+: href) :
    normalize href cur b = keepStripped href := by
  unfold normalize
  rw [if_neg h1, if_neg h2, if_neg h3, if_pos h4]

theorem normalize_of_rel (href cur b : Str) (h1 : ¬ lit "/" <+: href)
    (h2 : ¬ (lit "#" <+: href ∨ lit "mailto:" <+: href ∨ lit "tel:" <+: href))
    (h3 : ¬ (href = lit "true" ∨ href = lit "false")) (h4 : ¬ lit "http" <+: href) :
    normalize href cur b = keepStripped (cur ++ href) := by
  unfold normalize
  rw [if_neg h1, if_neg h2, if_neg h3, if_neg h4]

theorem normalize_some_shape {href cur b r : Str} (hc : lit "http" <+: cur)
    (hb : lit "http" <+: b) (h : normalize href cur b = some r) :
    (lit "http" <+: r) ∧ '?' ∉ r := by
  by_cases h1 : lit "/" <+: href
  · rw [normalize_of_slash href cur b h1,
        keepStripped_of_http (hb.trans (b.prefix_append href))] at h
    obtain rfl := Option.some.inj h
    exact ⟨http_prefix_stripQuery (hb.trans (b.prefix_append href)), not_mem_stripQuery _⟩
  · by_cases h2 : lit "#" <+: href ∨ lit "mailto:" <+: href ∨ lit "tel:" <+: href
    · rw [normalize_of_discard href cur b h1 h2] at h
      exact absurd h (by simp)
    · by_cases h3 : href = lit "true" ∨ href = lit "false"
      · rw [normalize_of_bool href cur b h1 h2 h3] at h
        exact absurd h (by simp)
      · by_cases h4 : lit "http" <+: href
        · rw [normalize_of_http href cur b h1 h2 h3 h4, keepStripped_of_http h4] at h
          obtain rfl := Option.some.inj h
          exact ⟨http_prefix_stripQuery h4, not_mem_stripQuery _⟩
        · rw [normalize_of_rel href cur b h1 h2 h3 h4,
              keepStripped_of_http (hc.trans (cur.prefix_append href))] at h
          obtain rfl := Option.some.inj h
          exact ⟨http_prefix_stripQuery (hc.trans (cur.prefix_append href)),
                 not_mem_stripQuery _⟩

theorem exists_raw_of_mem_getHrefs {text cur b r : Str} (h : r ∈ getHrefs text cur b) :
    ∃ raw, normalize raw cur b = some r := by
  unfold getHrefs at h
  obtain ⟨raw, _, hn⟩ := List.mem_filterMap.1 h
  exact ⟨raw, hn⟩

/-! ### Lemmas about one fetch attempt -/

theorem fetchStep_transport {fetchO : Str → FetchResult} {u : Str} (b : Str)
    (v : List Str) (hf : fetchO u = .transportError) :
    fetchStep fetchO b v u = .error () := by
  simp [fetchStep, hf]

theorem fetchStep_404 {fetchO : Str → FetchResult} {u : Str} {st : Nat}
    {ct : Option Str} {body : Str} (b : Str) (v : List Str)
    (hf : fetchO u = .response st ct body) (hst : st = 404) :
    fetchStep fetchO b v u = .error () := by
  subst hst
  simp [fetchStep, hf]

theorem fetchStep_missing_ct {fetchO : Str → FetchResult} {u b : Str} {st : Nat}
    {body : Str} (v : List Str) (hf : fetchO u = .response st none body)
    (hst : st ≠ 404) (hin : b <+: u) :
    fetchStep fetchO b v u = .error () := by
  simp [fetchStep, hf, hst, hin]

theorem fetchStep_cross {fetchO : Str → FetchResult} {u b : Str} {st : Nat}
    {ct : Option Str} {body : Str} (v : List Str)
    (hf : fetchO u = .response st ct body) (hst : st ≠ 404) (hin : ¬ b <+: u) :
    fetchStep fetchO b v u = .ok [] := by
  simp [fetchStep, hf, hst, hin]

theorem fetchStep_success_html {fetchO : Str → FetchResult} {u b ct body : Str}
    {st : Nat} (v : List Str) (hf : fetchO u = .response st (some ct) body)
    (hst : st ≠ 404) (hin : b <+: u) (hct : lit "text/html" <:+: ct) :
    fetchStep fetchO b v u =
      .ok ((getHrefs body u b).filter (fun h => decide (h ∉ v))) := by
  simp [fetchStep, hf, hst, hin, hct]

theorem fetchStep_success_nonhtml {fetchO : Str → FetchResult} {u b ct body : Str}
    {st : Nat} (v : List Str) (hf : fetchO u = .response st (some ct) body)
    (hst : st ≠ 404) (hin : b <+: u) (hct : ¬ lit "text/html" <:+: ct) :
    fetchStep fetchO b v u = .ok [] := by
  simp [fetchStep, hf, hst, hin, hct, getHrefs, matchHrefs, matchHrefsAux]

/-! ### Lemmas about one loop iteration and the loop -/

theorem step_of_none {f : Str → FetchResult} {b : Str} {s : CrawlState}
    (h : s.queue[s.queuePos]? = none) : step f b s = s := by
  simp [step, h]

theorem step_skip {f : Str → FetchResult} {b : Str} {s : CrawlState} {e : Entry}
    (he : s.queue[s.queuePos]? = some e) (hv : e.url ∈ s.visited) :
    step f b s = { s with queuePos := s.queuePos + 1 } := by
  simp only [step, he]
  rw [if_pos hv]

theorem step_fresh_error {f : Str → FetchResult} {b : Str} {s : CrawlState} {e : Entry}
    (he : s.queue[s.queuePos]? = some e) (hv : e.url ∉ s.visited)
    (hf : fetchStep f b (e.url :: s.visited) e.url = .error ()) :
    step f b s = { s with queuePos := s.queuePos + 1, visited := e.url :: s.visited,
                          fetched := s.fetched ++ [e.url],
                          broken := s.broken ++ [e] } := by
  simp only [step, he, if_neg hv, hf]

theorem step_fresh_ok {f : Str → FetchResult} {b : Str} {s : CrawlState} {e : Entry}
    {ls : List Str} (he : s.queue[s.queuePos]? = some e) (hv : e.url ∉ s.visited)
    (hf : fetchStep f b (e.url :: s.visited) e.url = .ok ls) :
    step f b s = { s with queuePos := s.queuePos + 1, visited := e.url :: s.visited,
                          fetched := s.fetched ++ [e.url],
                          queue := s.queue ++ ls.map (fun u => ⟨u, e.url⟩) } := by
  simp only [step, he, if_neg hv, hf]

theorem run_succ_of_lt {s : CrawlState} (f : Str → FetchResult) (b : Str) (n : Nat)
    (h : s.queuePos < s.queue.length) :
    run f b (n + 1) s = run f b n (step f b s) := by
  simp [run, h]

theorem run_succ_of_stop {s : CrawlState} (f : Str → FetchResult) (b : Str) (n : Nat)
    (h : ¬ s.queuePos < s.queue.length) : run f b (n + 1) s = s := by
  simp [run, h]

theorem run_inv (f : Str → FetchResult) (b : Str) (P : CrawlState → Prop)
    (hP : ∀ s, P s → P (step f b s)) : ∀ (n : Nat) (s : CrawlState), P s → P (run f b n s) := by
  intro n
  induction n with
  | zero => intro s hs; exact hs
  | succ n ih =>
    intro s hs
    by_cases h : s.queuePos < s.queue.length
    · rw [run_succ_of_lt f b n h]
      exact ih _ (hP s hs)
    · rw [run_succ_of_stop f b n h]
      exact hs

theorem mem_of_idx {α : Type} {l : List α} : ∀ {i : Nat} {a : α}, l[i]? = some a → a ∈ l := by
  induction l with
  | nil => intro i a h; simp at h
  | cons hd tl ih =>
    intro i a h
    cases i with
    | zero => simp at h; simp [h]
    | succ j => exact List.mem_cons_of_mem _ (ih (by simpa using h))

theorem step_visited_fresh {f : Str → FetchResult} {b : Str} {s : CrawlState} {e : Entry}
    (he : s.queue[s.queuePos]? = some e) (hv : e.url ∉ s.visited) :
    (step f b s).visited = e.url :: s.visited := by
  cases hf : fetchStep f b (e.url :: s.visited) e.url with
  | error u => cases u; rw [step_fresh_error he hv hf]
  | ok ls => rw [step_fresh_ok he hv hf]

/-! ### Invariant preservation -/

theorem invFetch_step (f : Str → FetchResult) (b : Str) (s : CrawlState)
    (h : InvFetch s) : InvFetch (step f b s) := by
  cases he : s.queue[s.queuePos]? with
  | none => rw [step_of_none he]; exact h
  | some e =>
    by_cases hv : e.url ∈ s.visited
    · rw [step_skip he hv]; exact h
    · have hnf : e.url ∉ s.fetched := fun hm => hv (h.1 ▸ List.mem_reverse.2 hm)
      have hgoal : (e.url :: s.visited = (s.fetched ++ [e.url]).reverse) ∧
          (s.fetched ++ [e.url]).Nodup := by
        constructor
        · simp [h.1]
        · simp [List.nodup_append, h.2, hnf]
      cases hf : fetchStep f b (e.url :: s.visited) e.url with
      | error u => cases u; rw [step_fresh_error he hv hf]; exact hgoal
      | ok ls => rw [step_fresh_ok he hv hf]; exact hgoal

theorem invU_step (f : Str → FetchResult) (b : Str) (U : List Str)
    (hcl : closedUniverse f b U) (s : CrawlState) (h : InvU U s) :
    InvU U (step f b s) := by
  obtain ⟨hnd, hvU, hqU⟩ := h
  cases he : s.queue[s.queuePos]? with
  | none => rw [step_of_none he]; exact ⟨hnd, hvU, hqU⟩
  | some e =>
    have heU : e.url ∈ U := hqU e (mem_of_idx he)
    by_cases hv : e.url ∈ s.visited
    · rw [step_skip he hv]; exact ⟨hnd, hvU, hqU⟩
    · have hnd' : (e.url :: s.visited).Nodup := List.nodup_cons.2 ⟨hv, hnd⟩
      have hvU' : ∀ u ∈ e.url :: s.visited, u ∈ U := by
        intro u hu
        rcases List.mem_cons.1 hu with rfl | hu
        · exact heU
        · exact hvU u hu
      cases hf : fetchStep f b (e.url :: s.visited) e.url with
      | error u =>
        cases u
        rw [step_fresh_error he hv hf]
        exact ⟨hnd', hvU', hqU⟩
      | ok ls =>
        rw [step_fresh_ok he hv hf]
        refine ⟨hnd', hvU', ?_⟩
        intro e' he'
        rcases List.mem_append.1 he' with he' | he'
        · exact hqU e' he'
        · obtain ⟨u', hu', rfl⟩ := List.mem_map.1 he'
          exact hcl e.url heU (e.url :: s.visited) ls hf u' hu'

theorem fetchStep_ok_shape {f : Str → FetchResult} {b u : Str} {v : List Str}
    {ls : List Str} (hcur : lit "http" <+: u) (hb : lit "http" <+: b)
    (hf : fetchStep f b v u = .ok ls) :
    ∀ u' ∈ ls, (lit "http" <+: u') ∧ '?' ∉ u' := by
  intro u' hu'
  rcases hf0 : f u with _ | ⟨st, ct, body⟩
  · rw [fetchStep_transport b v hf0] at hf
    exact Except.noConfusion hf
  · by_cases hst : st = 404
    · rw [fetchStep_404 b v hf0 hst] at hf
      exact Except.noConfusion hf
    · by_cases hin : b <+: u
      · cases ct with
        | none =>
          rw [fetchStep_missing_ct v hf0 hst hin] at hf
          exact Except.noConfusion hf
        | some ctv =>
          by_cases hct : lit "text/html" <:+: ctv
          · rw [fetchStep_success_html v hf0 hst hin hct] at hf
            obtain rfl := Except.ok.inj hf
            have hu'' := List.mem_of_mem_filter hu'
            obtain ⟨raw, hraw⟩ := exists_raw_of_mem_getHrefs hu''
            exact normalize_some_shape hcur hb hraw
          · rw [fetchStep_success_nonhtml v hf0 hst hin hct] at hf
            obtain rfl := Except.ok.inj hf
            simp at hu'
      · rw [fetchStep_cross v hf0 hst hin] at hf
        obtain rfl := Except.ok.inj hf
        simp at hu'

theorem invQ_step (f : Str → FetchResult) (b seed : Str) (hb : lit "http" <+: b)
    (s : CrawlState) (h : InvQ seed s) : InvQ seed (step f b s) := by
  obtain ⟨⟨tl, hq, htl⟩, hhttp⟩ := h
  cases he : s.queue[s.queuePos]? with
  | none => rw [step_of_none he]; exact ⟨⟨tl, hq, htl⟩, hhttp⟩
  | some e =>
    by_cases hv : e.url ∈ s.visited
    · rw [step_skip he hv]; exact ⟨⟨tl, hq, htl⟩, hhttp⟩
    · have hcur : lit "http" <+: e.url := hhttp e (mem_of_idx he)
      have happ : ∃ xs, (step f b s).queue = s.queue ++ xs ∧
          ∀ r ∈ xs, (lit "http" <+: r.url) ∧ '?' ∉ r.url := by
        cases hf : fetchStep f b (e.url :: s.visited) e.url with
        | error u =>
          cases u
          rw [step_fresh_error he hv hf]
          exact ⟨[], by simp, by simp⟩
        | ok ls =>
          rw [step_fresh_ok he hv hf]
          refine ⟨ls.map (fun u => ⟨u, e.url⟩), rfl, ?_⟩
          intro r hr
          obtain ⟨u', hu', rfl⟩ := List.mem_map.1 hr
          exact fetchStep_ok_shape hcur hb hf u' hu'
      obtain ⟨xs, hqx, hxs⟩ := happ
      constructor
      · refine ⟨tl ++ xs, by rw [hqx, hq]; rfl, ?_⟩
        intro r hr
        rcases List.mem_append.1 hr with hr | hr
        · exact htl r hr
        · exact (hxs r hr).2
      · intro r hr
        rw [hqx] at hr
        rcases List.mem_append.1 hr with hr | hr
        · exact hhttp r hr
        · exact (hxs r hr).1

/-! ### Termination of the crawl loop -/

theorem nonterminal_entry {s : CrawlState} (h : ¬ terminal s) :
    ∃ e, s.queue[s.queuePos]? = some e := by
  have hlt : s.queuePos < s.queue.length := Nat.lt_of_not_le h
  exact ⟨_, List.getElem?_eq_getElem hlt⟩

theorem exists_terminal_inner (f : Str → FetchResult) (b : Str) (U V : List Str)
    (H : ∀ s : CrawlState, InvU U s → s.visited = V → ¬ terminal s →
      (∃ e, s.queue[s.queuePos]? = some e ∧ e.url ∉ s.visited) →
      ∃ n, terminal (run f b n (step f b s))) :
    ∀ (k : Nat) (s : CrawlState), InvU U s → s.visited = V →
      s.queue.length - s.queuePos ≤ k → ∃ n, terminal (run f b n s) := by
  intro k
  induction k with
  | zero =>
    intro s _ _ hk
    exact ⟨0, Nat.sub_eq_zero_iff_le.1 (Nat.le_zero.1 hk)⟩
  | succ k ih =>
    intro s hI hV hk
    by_cases ht : terminal s
    · exact ⟨0, ht⟩
    · obtain ⟨e, he⟩ := nonterminal_entry ht
      have hlt : s.queuePos < s.queue.length := Nat.lt_of_not_le ht
      by_cases hv : e.url ∈ s.visited
      · have hstep := step_skip (f := f) (b := b) he hv
        obtain ⟨n, hn⟩ := ih { s with queuePos := s.queuePos + 1 } hI hV (by simp; omega)
        exact ⟨n + 1, by rw [run_succ_of_lt f b n hlt, hstep]; exact hn⟩
      · obtain ⟨n, hn⟩ := H s hI hV ht ⟨e, he, hv⟩
        exact ⟨n + 1, by rw [run_succ_of_lt f b n hlt]; exact hn⟩

theorem exists_terminal_outer (f : Str → FetchResult) (b : Str) (U : List Str)
    (hcl : closedUniverse f b U) :
    ∀ (a : Nat) (s : CrawlState), InvU U s → U.length - s.visited.length ≤ a →
      ∃ n, terminal (run f b n s) := by
  intro a
  induction a with
  | zero =>
    intro s hI ha
    refine exists_terminal_inner f b U s.visited ?_ (s.queue.length - s.queuePos) s hI rfl
      (le_refl _)
    rintro s' hI' hV _ ⟨e, he, hv⟩
    exfalso
    have heU : e.url ∈ U := hI'.2.2 e (mem_of_idx he)
    have hnd' : (e.url :: s'.visited).Nodup := List.nodup_cons.2 ⟨hv, hI'.1⟩
    have hsub' : (e.url :: s'.visited) ⊆ U := by
      intro x hx
      rcases List.mem_cons.1 hx with rfl | hx
      · exact heU
      · exact hI'.2.1 x hx
    have hlen := (hnd'.subperm hsub').length_le
    simp only [List.length_cons] at hlen
    rw [hV] at hlen
    omega
  | succ a ih =>
    intro s hI ha
    refine exists_terminal_inner f b U s.visited ?_ (s.queue.length - s.queuePos) s hI rfl
      (le_refl _)
    rintro s' hI' hV _ ⟨e, he, hv⟩
    have hI'' := invU_step f b U hcl s' hI'
    have hvis := step_visited_fresh (f := f) (b := b) he hv
    refine ih (step f b s') hI'' ?_
    rw [hvis]
    simp only [List.length_cons]
    rw [hV]
    omega

/-! ### Lemmas about the starting-URL fix-up -/

theorem replaceFirst_cons (pat rep : Str) (c : Char) (cs : Str) :
    replaceFirst pat rep (c :: cs) =
      if pat <+: (c :: cs) then rep ++ (c :: cs).drop pat.length
      else c :: replaceFirst pat rep cs := rfl

theorem replaceFirst_of_not_infix (pat rep : Str) :
    ∀ s : Str, ¬ (pat <:+: s) → replaceFirst pat rep s = s := by
  intro s
  induction s with
  | nil => intro _; rfl
  | cons c cs ih =>
    intro h
    have h1 : ¬ pat <+: (c :: cs) := fun hp => h hp.isInfix
    have h2 : ¬ pat <:+: cs := by
      intro hin
      obtain ⟨x, y, hxy⟩ := hin
      exact h ⟨c :: x, y, by rw [← hxy]; rfl⟩
    rw [replaceFirst_cons, if_neg h1, ih h2]

theorem fixStartingUrl_of_no_http (input : Str) (h : ¬ lit "http" <+: input) :
    fixStartingUrl input = lit "https://" ++ input := by
  unfold fixStartingUrl
  rw [if_neg h]

theorem fixStartingUrl_of_http_scheme (input : Str) (h : lit "http://" <+: input) :
    fixStartingUrl input = lit "https://" ++ input.drop 7 := by
  obtain ⟨t, ht⟩ := h
  subst ht
  have h4 : lit "http" <+: lit "http://" ++ t := ⟨lit "://" ++ t, rfl⟩
  unfold fixStartingUrl
  rw [if_pos h4]
  show replaceFirst (lit "http://") (lit "https://")
        ('h' :: 't' :: 't' :: 'p' :: ':' :: '/' :: '/' :: t) = _
  rw [replaceFirst_cons, if_pos ⟨t, rfl⟩]
  rfl

theorem fixStartingUrl_of_http_no_scheme (input : Str) (h : lit "http" <+: input)
    (hno : ¬ (lit "http://" <:+: input)) : fixStartingUrl input = input := by
  unfold fixStartingUrl
  rw [if_pos h, replaceFirst_of_not_infix _ _ input hno]

theorem cons_prefix_ne {a b : Char} {l₁ l₂ : Str} (hab : a ≠ b) :
    ¬ (a :: l₁ <+: b :: l₂) := by
  rintro ⟨x, hx⟩
  exact hab (List.cons.inj hx).1

theorem fixStartingUrl_http (input : Str) : lit "http" <+: fixStartingUrl input := by
  by_cases h : lit "http" <+: input
  · obtain ⟨t, rfl⟩ := h
    unfold fixStartingUrl
    rw [if_pos ⟨t, rfl⟩]
    by_cases h7 : lit "http://" <+: lit "http" ++ t
    · obtain ⟨t', ht'⟩ := h7
      rw [← ht']
      show lit "http" <+: replaceFirst (lit "http://") (lit "https://")
        ('h' :: 't' :: 't' :: 'p' :: ':' :: '/' :: '/' :: t')
      rw [replaceFirst_cons, if_pos ⟨t', rfl⟩]
      exact ⟨lit "s://" ++ t', rfl⟩
    · have h7' : ¬ lit "http://" <+: ('h' :: 't' :: 't' :: 'p' :: t) := h7
      have hn2 : ¬ lit "http://" <+: ('t' :: 't' :: 'p' :: t) := cons_prefix_ne (by decide)
      have hn3 : ¬ lit "http://" <+: ('t' :: 'p' :: t) := cons_prefix_ne (by decide)
      have hn4 : ¬ lit "http://" <+: ('p' :: t) := cons_prefix_ne (by decide)
      show lit "http" <+: replaceFirst (lit "http://") (lit "https://")
        ('h' :: 't' :: 't' :: 'p' :: t)
      rw [replaceFirst_cons, if_neg h7', replaceFirst_cons, if_neg hn2,
          replaceFirst_cons, if_neg hn3, replaceFirst_cons, if_neg hn4]
      exact ⟨replaceFirst (lit "http://") (lit "https://") t, rfl⟩
  · rw [fixStartingUrl_of_no_http input h]
    exact ⟨lit "s://" ++ input, rfl⟩

theorem filter_not_mem_id (v xs : List Str) (hall : ∀ x ∈ xs, x ∉ v) :
    xs.filter (fun h => decide (h ∉ v)) = xs := by
  induction xs with
  | nil => rfl
  | cons x xs ih =>
    rw [List.filter_cons, if_pos (by simpa using hall x (List.mem_cons_self x xs)),
        ih (fun y hy => hall y (List.mem_cons_of_mem x hy))]

/-! ### Claim C4 -/

/-- C4, counterexample: the claim's rule list (which has no `true`/`false`
rule) maps the href `true` to currentPage ++ `true`, but `getHrefs` in
src/index.js (lines 134-136) discards it. -/
theorem c4_counterexample :
    normalize (lit "true") (lit "https://s/p/") (lit "https://s") = none ∧
    normalizeClaimC4 (lit "true") (lit "https://s/p/") (lit "https://s") =
      some (lit "https://s/p/true") := by decide

/-- C4, amended: `normalize` applies the claim's rules in the stated order,
with one additional rule between the fragment/mailto/tel discard and the
`http` check: an href that is exactly `true` or `false` is discarded.  The
current page URL and base origin are assumed to start with `http`, as they
always do in a run. -/
theorem c4_normalize_rules (href cur b : Str) (hc : lit "http" <+: cur)
    (hb : lit "http" <+: b) :
    (lit "/" <+: href → normalize href cur b = some (stripQuery (b ++ href)))
  ∧ (¬ lit "/" <+: href →
      (lit "#" <+: href ∨ lit "mailto:" <+: href ∨ lit "tel:" <+: href) →
      normalize href cur b = none)
  ∧ (¬ lit "/" <+: href →
      ¬ (lit "#" <+: href ∨ lit "mailto:" <+: href ∨ lit "tel:" <+: href) →
      (href = lit "true" ∨ href = lit "false") → normalize href cur b = none)
  ∧ (¬ lit "/" <+: href →
      ¬ (lit "#" <+: href ∨ lit "mailto:" <+: href ∨ lit "tel:" <+: href) →
      ¬ (href = lit "true" ∨ href = lit "false") → lit "http" <+: href →
      normalize href cur b = some (stripQuery href))
  ∧ (¬ lit "/" <+: href →
      ¬ (lit "#" <+: href ∨ lit "mailto:" <+: href ∨ lit "tel:" <+: href) →
      ¬ (href = lit "true" ∨ href = lit "false") → ¬ lit "http" <+: href →
      normalize href cur b = some (stripQuery (cur ++ href))) := by
  refine ⟨?_, ?_, ?_, ?_, ?_⟩
  · intro h1
    rw [normalize_of_slash href cur b h1,
        keepStripped_of_http (hb.trans (b.prefix_append href))]
  · intro h1 h2
    exact normalize_of_discard href cur b h1 h2
  · intro h1 h2 h3
    exact normalize_of_bool href cur b h1 h2 h3
  · intro h1 h2 h3 h4
    rw [normalize_of_http href cur b h1 h2 h3 h4, keepStripped_of_http h4]
  · intro h1 h2 h3 h4
    rw [normalize_of_rel href cur b h1 h2 h3 h4,
        keepStripped_of_http (hc.trans (cur.prefix_append href))]

/-- C4, witness: the origin-relative rule and the plain-relative rule at
concrete inputs. -/
theorem c4_normalize_rules_witness :
    normalize (lit "/a?x=1") (lit "https://s/p/") (lit "https://s") =
      some (stripQuery (lit "https://s" ++ lit "/a?x=1")) ∧
    normalize (lit "nested") (lit "https://s/p/") (lit "https://s") =
      some (stripQuery (lit "https://s/p/" ++ lit "nested")) :=
  ⟨(c4_normalize_rules (lit "/a?x=1") (lit "https://s/p/") (lit "https://s") (by decide)
      (by decide)).1 (by decide),
   (c4_normalize_rules (lit "nested") (lit "https://s/p/") (lit "https://s") (by decide)
      (by decide)).2.2.2.2 (by decide) (by decide) (by decide) (by decide)⟩

/-! ### Claim C6 -/

/-- C6: query strings never distinguish targets: normalizing `/a?` ++ q1
and `/a?` ++ q2 against the same current page and base origin yields the
same result, and (for a base origin starting with `http`, as always in a
run) that result is a kept canonical URL. -/
theorem c6_query_insensitive (a q1 q2 cur b : Str) :
    normalize (lit "/" ++ a ++ lit "?" ++ q1) cur b =
      normalize (lit "/" ++ a ++ lit "?" ++ q2) cur b ∧
    (lit "http" <+: b →
      (normalize (lit "/" ++ a ++ lit "?" ++ q1) cur b).isSome = true) := by
  have hpre : ∀ q : Str, lit "/" <+: (lit "/" ++ a ++ lit "?" ++ q) :=
    fun q => ⟨a ++ lit "?" ++ q, by simp [List.append_assoc]⟩
  have hkey : ∀ q : Str, normalize (lit "/" ++ a ++ lit "?" ++ q) cur b =
      keepStripped ((b ++ (lit "/" ++ a)) ++ '?' :: q) := by
    intro q
    rw [normalize_of_slash _ cur b (hpre q)]
    congr 1
    simp [List.append_assoc]
    rfl
  have hstrip : ∀ q : Str, stripQuery ((b ++ (lit "/" ++ a)) ++ '?' :: q) =
      stripQuery (b ++ (lit "/" ++ a)) := fun q => stripQuery_append_query _ q
  constructor
  · rw [hkey q1, hkey q2]
    unfold keepStripped
    rw [hstrip q1, hstrip q2]
  · intro hb
    rw [hkey q1]
    unfold keepStripped
    rw [hstrip q1,
        if_neg (stripQuery_ne_nil_of_http (hb.trans (b.prefix_append (lit "/" ++ a))))]
    rfl

/-- C6, witness: `/a?x=1` and `/a?x=2` normalize identically, to a kept
URL. -/
theorem c6_query_insensitive_witness :
    normalize (lit "/" ++ lit "a" ++ lit "?" ++ lit "x=1") (lit "https://s/p")
        (lit "https://s") =
      normalize (lit "/" ++ lit "a" ++ lit "?" ++ lit "x=2") (lit "https://s/p")
        (lit "https://s") ∧
    (normalize (lit "/" ++ lit "a" ++ lit "?" ++ lit "x=1") (lit "https://s/p")
        (lit "https://s")).isSome = true :=
  ⟨(c6_query_insensitive (lit "a") (lit "x=1") (lit "x=2") (lit "https://s/p")
      (lit "https://s")).1,
   (c6_query_insensitive (lit "a") (lit "x=1") (lit "x=2") (lit "https://s/p")
      (lit "https://s")).2 (by decide)⟩

/-! ### Claim C8 -/

/-- C8, counterexample: the input `httpz.example` has no scheme, yet
`https://` is not prepended — the starting URL is used unchanged, because
the source only tests `startsWith("http")`. -/
theorem c8_counterexample :
    ¬ (lit "http://" <+: (lit "httpz.example" : Str)) ∧
    ¬ (lit "https://" <+: (lit "httpz.example" : Str)) ∧
    fixStartingUrl (lit "httpz.example") = lit "httpz.example" ∧
    lit "httpz.example" ≠ lit "https://" ++ lit "httpz.example" := by decide

/-- C8, amended: `https://` is prepended exactly when the input does not
start with the four characters `http`; an input starting with `http://` is
upgraded to `https://`; an input starting with `http` but containing no
occurrence of `http://` is used unchanged. -/
theorem c8_scheme_fixup (input : Str) :
    (¬ lit "http" <+: input → fixStartingUrl input = lit "https://" ++ input)
  ∧ (lit "http://" <+: input → fixStartingUrl input = lit "https://" ++ input.drop 7)
  ∧ (lit "http" <+: input → ¬ (lit "http://" <:+: input) →
      fixStartingUrl input = input) :=
  ⟨fixStartingUrl_of_no_http input, fixStartingUrl_of_http_scheme input,
   fixStartingUrl_of_http_no_scheme input⟩

/-- C8, witness: the three fix-up behaviours at concrete inputs. -/
theorem c8_scheme_fixup_witness :
    fixStartingUrl (lit "example.com") = lit "https://" ++ lit "example.com" ∧
    fixStartingUrl (lit "http://a.b") = lit "https://" ++ (lit "http://a.b" : Str).drop 7 ∧
    fixStartingUrl (lit "httpz") = lit "httpz" :=
  ⟨(c8_scheme_fixup (lit "example.com")).1 (by decide),
   (c8_scheme_fixup (lit "http://a.b")).2.1 (by decide),
   (c8_scheme_fixup (lit "httpz")).2.2 (by decide) (by decide)⟩

/-! ### Claim C9 -/

/-- C9: a page whose extracted raw hrefs are exactly `#section`,
`mailto:x@y.com` and `true` contributes no normalized links, and the loop
iteration that processes such a page (in-origin, HTML, non-404) leaves the
frontier and the broken-link list unchanged. -/
theorem c9_discarded_hrefs (html : Str)
    (hm : matchHrefs html = [lit "#section", lit "mailto:x@y.com", lit "true"]) :
    (∀ cur b : Str, getHrefs html cur b = []) ∧
    (∀ (f : Str → FetchResult) (b : Str) (s : CrawlState) (e : Entry) (st : Nat)
      (ct : Str), s.queue[s.queuePos]? = some e → e.url ∉ s.visited →
      f e.url = .response st (some ct) html → st ≠ 404 → b <+: e.url →
      lit "text/html" <:+: ct →
      (step f b s).queue = s.queue ∧ (step f b s).broken = s.broken) := by
  have hget : ∀ cur b : Str, getHrefs html cur b = [] := by
    intro cur b
    unfold getHrefs
    rw [hm]
    have n1 : normalize (lit "#section") cur b = none :=
      normalize_of_discard _ cur b (by decide) (by decide)
    have n2 : normalize (lit "mailto:x@y.com") cur b = none :=
      normalize_of_discard _ cur b (by decide) (by decide)
    have n3 : normalize (lit "true") cur b = none :=
      normalize_of_bool _ cur b (by decide) (by decide) (by decide)
    simp [List.filterMap_cons, n1, n2, n3]
  refine ⟨hget, ?_⟩
  intro f b s e st ct he hv hf hst hin hct
  have hfs : fetchStep f b (e.url :: s.visited) e.url = .ok [] := by
    rw [fetchStep_success_html (e.url :: s.visited) hf hst hin hct, hget e.url b]
    rfl
  rw [step_fresh_ok he hv hfs]
  exact ⟨by simp, rfl⟩

/-- C9, witness: a concrete page carrying exactly those three hrefs. -/
theorem c9_discarded_hrefs_witness :
    getHrefs (lit "<a href=\"#section\"><a href=\"mailto:x@y.com\"><a href=\"true\">")
      (lit "https://s/p") (lit "https://s") = [] :=
  (c9_discarded_hrefs
    (lit "<a href=\"#section\"><a href=\"mailto:x@y.com\"><a href=\"true\">")
    (by decide)).1 (lit "https://s/p") (lit "https://s")

/-! ### Claim C10 -/

/-- C10: an in-origin URL whose response has a non-404 status but no
content-type header is recorded as a broken link (the header inspection
throws inside the per-entry handler), and nothing is enqueued for it. -/
theorem c10_missing_content_type (f : Str → FetchResult) (b : Str) (s : CrawlState)
    (e : Entry) (st : Nat) (body : Str)
    (he : s.queue[s.queuePos]? = some e) (hv : e.url ∉ s.visited)
    (hf : f e.url = .response st none body) (hst : st ≠ 404) (hin : b <+: e.url) :
    (step f b s).broken = s.broken ++ [e] ∧ (step f b s).queue = s.queue ∧
    (step f b s).visited = e.url :: s.visited := by
  rw [step_fresh_error he hv (fetchStep_missing_ct (e.url :: s.visited) hf hst hin)]
  exact ⟨rfl, rfl, rfl⟩

/-- C10, witness: a 500 response with no content-type header on the seed
URL produces a broken-link record. -/
theorem c10_missing_content_type_witness :
    (step noCtFetch (lit "https://s") (initState (lit "https://s"))).broken =
      (initState (lit "https://s")).broken ++ [⟨lit "https://s", lit "base URL"⟩] ∧
    (step noCtFetch (lit "https://s") (initState (lit "https://s"))).queue =
      (initState (lit "https://s")).queue ∧
    (step noCtFetch (lit "https://s") (initState (lit "https://s"))).visited =
      lit "https://s" :: (initState (lit "https://s")).visited :=
  c10_missing_content_type noCtFetch (lit "https://s") (initState (lit "https://s"))
    ⟨lit "https://s", lit "base URL"⟩ 500 [] rfl (by decide) rfl (by decide) (by decide)

/-! ### Claim C1 -/

/-- C1: in every run, no URL is fetched twice — the fetched list has no
duplicates, the visited set is exactly the fetched URLs (marked at pop
time, before the fetch), and a popped entry whose URL is already visited
only advances the queue position: no fetch is recorded and no broken-link
entry is produced. -/
theorem c1_fetch_at_most_once (f : Str → FetchResult) (input : Str) (n : Nat) :
    (run f (fixStartingUrl input) n (initState (fixStartingUrl input))).fetched.Nodup ∧
    (run f (fixStartingUrl input) n (initState (fixStartingUrl input))).visited =
      (run f (fixStartingUrl input) n (initState (fixStartingUrl input))).fetched.reverse ∧
    (∀ (s : CrawlState) (e : Entry), s.queue[s.queuePos]? = some e →
      e.url ∈ s.visited →
      step f (fixStartingUrl input) s = { s with queuePos := s.queuePos + 1 }) := by
  have hinv : InvFetch (run f (fixStartingUrl input) n (initState (fixStartingUrl input))) :=
    run_inv f (fixStartingUrl input) InvFetch (invFetch_step f (fixStartingUrl input)) n
      (initState (fixStartingUrl input)) ⟨rfl, List.nodup_nil⟩
  exact ⟨hinv.2, hinv.1, fun s e he hv => step_skip he hv⟩

/-- C1, witness: a concrete four-page run with duplicate-free fetches, and
a concrete already-visited pop that only advances the position. -/
theorem c1_fetch_at_most_once_witness :
    (run bfsFetch (fixStartingUrl (lit "s")) 4
      (initState (fixStartingUrl (lit "s")))).fetched.Nodup ∧
    step bfsFetch (fixStartingUrl (lit "s"))
        ⟨[⟨lit "https://s", lit "x"⟩], 0, [lit "https://s"], [], [lit "https://s"]⟩ =
      ⟨[⟨lit "https://s", lit "x"⟩], 1, [lit "https://s"], [], [lit "https://s"]⟩ :=
  ⟨(c1_fetch_at_most_once bfsFetch (lit "s") 4).1,
   (c1_fetch_at_most_once bfsFetch (lit "s") 4).2.2
     ⟨[⟨lit "https://s", lit "x"⟩], 0, [lit "https://s"], [], [lit "https://s"]⟩
     ⟨lit "https://s", lit "x"⟩ rfl (by decide)⟩

/-! ### Claim C2 -/

/-- C2, counterexample: a non-404 status (500) with no transport error is
recorded as a broken link when the in-origin response carries no
content-type header, so "broken exactly when transport error or 404" fails
on the code. -/
theorem c2_counterexample :
    noCtFetch (lit "https://s") = .response 500 none [] ∧
    (run noCtFetch (lit "https://s") 1 (initState (lit "https://s"))).broken =
      [⟨lit "https://s", lit "base URL"⟩] := by decide

/-- C2, amended: for a processed (fresh) frontier entry, the outcome is
broken exactly on a transport error, a 404 status, or an in-origin
response with no content-type header; any other status — 4xx/5xx included —
with the header present, or any cross-origin non-404 response, produces no
broken-link record, and an in-origin HTML page is still scanned and its
surviving links appended to the frontier. -/
theorem c2_broken_classification (f : Str → FetchResult) (b : Str) (s : CrawlState)
    (e : Entry) (he : s.queue[s.queuePos]? = some e) (hv : e.url ∉ s.visited) :
    (f e.url = .transportError →
      (step f b s).broken = s.broken ++ [e] ∧ (step f b s).queue = s.queue)
  ∧ (∀ (st : Nat) (ct : Option Str) (body : Str), f e.url = .response st ct body →
      st = 404 → (step f b s).broken = s.broken ++ [e] ∧ (step f b s).queue = s.queue)
  ∧ (∀ (st : Nat) (ct : Option Str) (body : Str), f e.url = .response st ct body →
      st ≠ 404 → ¬ b <+: e.url →
      (step f b s).broken = s.broken ∧ (step f b s).queue = s.queue)
  ∧ (∀ (st : Nat) (body : Str), f e.url = .response st none body →
      st ≠ 404 → b <+: e.url → (step f b s).broken = s.broken ++ [e])
  ∧ (∀ (st : Nat) (ct body : Str), f e.url = .response st (some ct) body →
      st ≠ 404 → b <+: e.url →
      (step f b s).broken = s.broken ∧
      (lit "text/html" <:+: ct →
        (step f b s).queue = s.queue ++
          ((getHrefs body e.url b).filter
            (fun h => decide (h ∉ e.url :: s.visited))).map (fun u => ⟨u, e.url⟩))) := by
  refine ⟨?_, ?_, ?_, ?_, ?_⟩
  · intro hf
    rw [step_fresh_error he hv (fetchStep_transport b (e.url :: s.visited) hf)]
    exact ⟨rfl, rfl⟩
  · intro st ct body hf hst
    rw [step_fresh_error he hv (fetchStep_404 b (e.url :: s.visited) hf hst)]
    exact ⟨rfl, rfl⟩
  · intro st ct body hf hst hin
    rw [step_fresh_ok he hv (fetchStep_cross (e.url :: s.visited) hf hst hin)]
    exact ⟨rfl, by simp⟩
  · intro st body hf hst hin
    rw [step_fresh_error he hv (fetchStep_missing_ct (e.url :: s.visited) hf hst hin)]
  · intro st ct body hf hst hin
    by_cases hct : lit "text/html" <:+: ct
    · rw [step_fresh_ok he hv (fetchStep_success_html (e.url :: s.visited) hf hst hin hct)]
      exact ⟨rfl, fun _ => rfl⟩
    · rw [step_fresh_ok he hv
        (fetchStep_success_nonhtml (e.url :: s.visited) hf hst hin hct)]
      exact ⟨rfl, fun h => absurd h hct⟩

/-- C2, witness: a transport error on the seed produces a broken-link
record and leaves the frontier unchanged. -/
theorem c2_broken_classification_witness :
    (step errFetch (lit "https://s") (initState (lit "https://s"))).broken =
      (initState (lit "https://s")).broken ++ [⟨lit "https://s", lit "base URL"⟩] ∧
    (step errFetch (lit "https://s") (initState (lit "https://s"))).queue =
      (initState (lit "https://s")).queue :=
  (c2_broken_classification errFetch (lit "https://s") (initState (lit "https://s"))
    ⟨lit "https://s", lit "base URL"⟩ rfl (by decide)).1 rfl

/-! ### Claim C3 -/

/-- C3: for every finite link universe containing the seed and closed under
the links a fetched page yields, the crawl loop terminates: some fuel makes
the queue position reach the final queue length. -/
theorem c3_termination (f : Str → FetchResult) (input : Str) (U : List Str)
    (hseed : fixStartingUrl input ∈ U)
    (hcl : closedUniverse f (fixStartingUrl input) U) :
    ∃ n, terminal (run f (fixStartingUrl input) n
      (initState (fixStartingUrl input))) := by
  apply exists_terminal_outer f (fixStartingUrl input) U hcl U.length
  · refine ⟨List.nodup_nil, ?_, ?_⟩
    · intro u hu
      simp [initState] at hu
    · intro e heq
      have he : e = ⟨fixStartingUrl input, lit "base URL"⟩ := by
        simpa [initState] using heq
      rw [he]
      exact hseed
  · simp [initState]

/-- C3, witness: with an all-transport-error oracle the singleton universe
of the seed is closed, and the run terminates. -/
theorem c3_termination_witness :
    ∃ n, terminal (run errFetch (fixStartingUrl (lit "s")) n
      (initState (fixStartingUrl (lit "s")))) :=
  c3_termination errFetch (lit "s") [lit "https://s"] (by decide)
    (by
      intro u hu v ls hls h hh
      simp [fetchStep, errFetch] at hls)

/-! ### Claim C7 -/

/-- C7, counterexample: the seed entry's URL keeps its query string (the
query is never stripped from the starting URL), and a page href such as
`httpz` is enqueued as-is although it is not an absolute URL. -/
theorem c7_counterexample :
    (initState (fixStartingUrl (lit "example.com/a?x=1"))).queue =
      [⟨lit "https://example.com/a?x=1", lit "base URL"⟩] ∧
    '?' ∈ (lit "https://example.com/a?x=1" : Str) ∧
    (⟨lit "httpz", lit "https://s"⟩ : Entry) ∈
      (run oddHrefFetch (lit "https://s") 1 (initState (lit "https://s"))).queue ∧
    ¬ (lit "http://" <+: (lit "httpz" : Str)) ∧
    ¬ (lit "https://" <+: (lit "httpz" : Str)) := by decide

/-- C7, amended: in every run, the seed entry (whose URL is the
scheme-adjusted starting URL and may retain a query string) stays at the
queue head, every frontier URL starts with `http`, and every non-seed
frontier URL contains no query string. -/
theorem c7_frontier_urls (f : Str → FetchResult) (input : Str) (n : Nat) :
    (run f (fixStartingUrl input) n (initState (fixStartingUrl input))).queue.head? =
      some ⟨fixStartingUrl input, lit "base URL"⟩ ∧
    (∀ e ∈ (run f (fixStartingUrl input) n (initState (fixStartingUrl input))).queue,
      lit "http" <+: e.url) ∧
    (∀ e ∈ (run f (fixStartingUrl input) n
      (initState (fixStartingUrl input))).queue.drop 1, '?' ∉ e.url) := by
  have hinit : InvQ (fixStartingUrl input) (initState (fixStartingUrl input)) := by
    refine ⟨⟨[], rfl, by simp⟩, ?_⟩
    intro e heq
    have he : e = ⟨fixStartingUrl input, lit "base URL"⟩ := by
      simpa [initState] using heq
    rw [he]
    exact fixStartingUrl_http input
  have hinv : InvQ (fixStartingUrl input)
      (run f (fixStartingUrl input) n (initState (fixStartingUrl input))) :=
    run_inv f (fixStartingUrl input) (InvQ (fixStartingUrl input))
      (invQ_step f (fixStartingUrl input) (fixStartingUrl input)
        (fixStartingUrl_http input)) n (initState (fixStartingUrl input)) hinit
  obtain ⟨⟨tl, hq, htl⟩, hhttp⟩ := hinv
  refine ⟨?_, hhttp, ?_⟩
  · rw [hq]
    rfl
  · rw [hq]
    exact htl

/-- C7, witness: after two steps of a concrete run the seed entry heads the
queue, and the enqueued entry for `https://s/a` starts with `http` and is
query-free. -/
theorem c7_frontier_urls_witness :
    (run bfsFetch (fixStartingUrl (lit "s")) 2
      (initState (fixStartingUrl (lit "s")))).queue.head? =
      some ⟨fixStartingUrl (lit "s"), lit "base URL"⟩ ∧
    lit "http" <+: (⟨lit "https://s/a", lit "https://s"⟩ : Entry).url ∧
    '?' ∉ (⟨lit "https://s/a", lit "https://s"⟩ : Entry).url :=
  ⟨(c7_frontier_urls bfsFetch (lit "s") 2).1,
   (c7_frontier_urls bfsFetch (lit "s") 2).2.1 ⟨lit "https://s/a", lit "https://s"⟩
     (by decide),
   (c7_frontier_urls bfsFetch (lit "s") 2).2.2 ⟨lit "https://s/a", lit "https://s"⟩
     (by decide)⟩

/-! ### Claim C5 -/

/-- C5: fetches are issued in breadth-first FIFO discovery order.  For
every run whose seed page links to A then B and whose page A links to C
(all fetchable, in-origin, HTML, pairwise distinct), the fetch order is
seed, A, B, C.  Moreover the queue only ever grows at the tail (the old
queue is a prefix of the new one) and every pop advances the read position
by exactly one. -/
theorem c5_breadth_first :
    (∀ (f : Str → FetchResult) (base A B C bodyS bodyA rA rB rC : Str),
      A ≠ base → B ≠ base → C ≠ base → A ≠ B → C ≠ A → C ≠ B →
      base <+: A → base <+: B → base <+: C →
      f base = .response 200 (some (lit "text/html")) bodyS →
      f A = .response 200 (some (lit "text/html")) bodyA →
      f B = .response 200 (some (lit "text/html")) [] →
      f C = .response 200 (some (lit "text/html")) [] →
      matchHrefs bodyS = [rA, rB] → matchHrefs bodyA = [rC] →
      normalize rA base base = some A → normalize rB base base = some B →
      normalize rC A base = some C →
      (run f base 4 (initState base)).fetched = [base, A, B, C])
  ∧ (∀ (f : Str → FetchResult) (b : Str) (s : CrawlState),
      s.queue <+: (step f b s).queue)
  ∧ (∀ (f : Str → FetchResult) (b : Str) (s : CrawlState),
      s.queuePos < s.queue.length → (step f b s).queuePos = s.queuePos + 1) := by
  refine ⟨?_, ?_, ?_⟩
  · intro f base A B C bodyS bodyA rA rB rC hAb hBb hCb hAB hCA hCB hinA hinB hinC
      hfS hfA hfB hfC hmS hmA hnA hnB hnC
    have hg1 : getHrefs bodyS base base = [A, B] := by
      unfold getHrefs
      rw [hmS]
      simp [List.filterMap_cons, hnA, hnB]
    have fs1 : fetchStep f base [base] base = .ok [A, B] := by
      rw [fetchStep_success_html [base] hfS (by decide) (List.prefix_refl base)
            (List.infix_refl _), hg1, filter_not_mem_id]
      intro x hx
      rcases List.mem_cons.1 hx with rfl | hx
      · simp [hAb]
      · rcases List.mem_cons.1 hx with rfl | hx
        · simp [hBb]
        · simp at hx
    have e1 : step f base (initState base) =
        ⟨[⟨base, lit "base URL"⟩, ⟨A, base⟩, ⟨B, base⟩], 1, [base], [], [base]⟩ := by
      rw [step_fresh_ok (s := initState base) (e := ⟨base, lit "base URL"⟩) rfl
        (by simp [initState]) fs1]
      rfl
    have hg2 : getHrefs bodyA A base = [C] := by
      unfold getHrefs
      rw [hmA]
      simp [List.filterMap_cons, hnC]
    have fs2 : fetchStep f base [A, base] A = .ok [C] := by
      rw [fetchStep_success_html [A, base] hfA (by decide) hinA (List.infix_refl _),
          hg2, filter_not_mem_id]
      intro x hx
      rcases List.mem_cons.1 hx with rfl | hx
      · simp [hCA, hCb]
      · simp at hx
    have e2 : step f base
        (⟨[⟨base, lit "base URL"⟩, ⟨A, base⟩, ⟨B, base⟩], 1, [base], [], [base]⟩ :
          CrawlState) =
        ⟨[⟨base, lit "base URL"⟩, ⟨A, base⟩, ⟨B, base⟩, ⟨C, A⟩], 2, [A, base], [],
          [base, A]⟩ := by
      rw [step_fresh_ok
        (s := ⟨[⟨base, lit "base URL"⟩, ⟨A, base⟩, ⟨B, base⟩], 1, [base], [], [base]⟩)
        (e := ⟨A, base⟩) rfl (by simp [hAb]) fs2]
      rfl
    have fs3 : fetchStep f base [B, A, base] B = .ok [] := by
      rw [fetchStep_success_html [B, A, base] hfB (by decide) hinB (List.infix_refl _)]
      rfl
    have e3 : step f base
        (⟨[⟨base, lit "base URL"⟩, ⟨A, base⟩, ⟨B, base⟩, ⟨C, A⟩], 2, [A, base], [],
          [base, A]⟩ : CrawlState) =
        ⟨[⟨base, lit "base URL"⟩, ⟨A, base⟩, ⟨B, base⟩, ⟨C, A⟩], 3, [B, A, base], [],
          [base, A, B]⟩ := by
      rw [step_fresh_ok
        (s := ⟨[⟨base, lit "base URL"⟩, ⟨A, base⟩, ⟨B, base⟩, ⟨C, A⟩], 2, [A, base], [],
          [base, A]⟩)
        (e := ⟨B, base⟩) rfl (by simp [Ne.symm hAB, hBb]) fs3]
      rfl
    have fs4 : fetchStep f base [C, B, A, base] C = .ok [] := by
      rw [fetchStep_success_html [C, B, A, base] hfC (by decide) hinC (List.infix_refl _)]
      rfl
    have e4 : step f base
        (⟨[⟨base, lit "base URL"⟩, ⟨A, base⟩, ⟨B, base⟩, ⟨C, A⟩], 3, [B, A, base], [],
          [base, A, B]⟩ : CrawlState) =
        ⟨[⟨base, lit "base URL"⟩, ⟨A, base⟩, ⟨B, base⟩, ⟨C, A⟩], 4, [C, B, A, base], [],
          [base, A, B, C]⟩ := by
      rw [step_fresh_ok
        (s := ⟨[⟨base, lit "base URL"⟩, ⟨A, base⟩, ⟨B, base⟩, ⟨C, A⟩], 3, [B, A, base], [],
          [base, A, B]⟩)
        (e := ⟨C, A⟩) rfl (by simp [hCB, hCA, hCb]) fs4]
      rfl
    have t1 : run f base 4 (initState base) =
        run f base 3 (step f base (initState base)) :=
      run_succ_of_lt f base 3 (by simp [initState])
    have t2 : run f base 3
        (⟨[⟨base, lit "base URL"⟩, ⟨A, base⟩, ⟨B, base⟩], 1, [base], [], [base]⟩ :
          CrawlState) =
        run f base 2 (step f base
          ⟨[⟨base, lit "base URL"⟩, ⟨A, base⟩, ⟨B, base⟩], 1, [base], [], [base]⟩) :=
      run_succ_of_lt f base 2 (by simp)
    have t3 : run f base 2
        (⟨[⟨base, lit "base URL"⟩, ⟨A, base⟩, ⟨B, base⟩, ⟨C, A⟩], 2, [A, base], [],
          [base, A]⟩ : CrawlState) =
        run f base 1 (step f base
          ⟨[⟨base, lit "base URL"⟩, ⟨A, base⟩, ⟨B, base⟩, ⟨C, A⟩], 2, [A, base], [],
            [base, A]⟩) :=
      run_succ_of_lt f base 1 (by simp)
    have t4 : run f base 1
        (⟨[⟨base, lit "base URL"⟩, ⟨A, base⟩, ⟨B, base⟩, ⟨C, A⟩], 3, [B, A, base], [],
          [base, A, B]⟩ : CrawlState) =
        run f base 0 (step f base
          ⟨[⟨base, lit "base URL"⟩, ⟨A, base⟩, ⟨B, base⟩, ⟨C, A⟩], 3, [B, A, base], [],
            [base, A, B]⟩) :=
      run_succ_of_lt f base 0 (by simp)
    rw [t1, e1, t2, e2, t3, e3, t4, e4]
    rfl
  · intro f b s
    cases he : s.queue[s.queuePos]? with
    | none => rw [step_of_none he]
    | some e =>
      by_cases hv : e.url ∈ s.visited
      · rw [step_skip he hv]
      · cases hf : fetchStep f b (e.url :: s.visited) e.url with
        | error u =>
          cases u
          rw [step_fresh_error he hv hf]
        | ok ls =>
          rw [step_fresh_ok he hv hf]
          exact s.queue.prefix_append _
  · intro f b s hlt
    obtain ⟨e, he⟩ : ∃ e, s.queue[s.queuePos]? = some e :=
      ⟨_, List.getElem?_eq_getElem hlt⟩
    by_cases hv : e.url ∈ s.visited
    · rw [step_skip he hv]
    · cases hf : fetchStep f b (e.url :: s.visited) e.url with
      | error u =>
        cases u
        rw [step_fresh_error he hv hf]
      | ok ls =>
        rw [step_fresh_ok he hv hf]

/-- C5, witness: the concrete scenario with seed `https://s` linking to
`/a` then `/b`, and `/a` linking to `/c`, fetched in BFS order; plus the
tail-growth and position-advance facts at the initial state. -/
theorem c5_breadth_first_witness :
    (run bfsFetch (lit "https://s") 4 (initState (lit "https://s"))).fetched =
      [lit "https://s", lit "https://s/a", lit "https://s/b", lit "https://s/c"] ∧
    (initState (lit "https://s")).queue <+:
      (step bfsFetch (lit "https://s") (initState (lit "https://s"))).queue ∧
    (step bfsFetch (lit "https://s") (initState (lit "https://s"))).queuePos =
      (initState (lit "https://s")).queuePos + 1 :=
  ⟨c5_breadth_first.1 bfsFetch (lit "https://s") (lit "https://s/a") (lit "https://s/b")
    (lit "https://s/c") (lit "<a href=\"/a\"><a href=\"/b\">") (lit "<a href=\"/c\">")
    (lit "/a") (lit "/b") (lit "/c") (by decide) (by decide) (by decide) (by decide)
    (by decide) (by decide) (by decide) (by decide) (by decide) (by decide) (by decide)
    (by decide) (by decide) (by decide) (by decide) (by decide) (by decide) (by decide),
   c5_breadth_first.2.1 bfsFetch (lit "https://s") (initState (lit "https://s")),
   c5_breadth_first.2.2 bfsFetch (lit "https://s") (initState (lit "https://s"))
     (by decide)⟩

end LinkCheck
